import Mathlib

/-!
Verification development for the invsto stock backend.

The embedding models `src/main.py`:
  * `moving_average_strategy` (GET /strategy/performance): dual moving-average
    crossover backtest over the stored price series, written with pandas.
    Rolling means with full-window minimum, dropna, signal derivation,
    position = shifted signal, dropna, pct_change, skipna product.
  * `add_stock_data` (POST /data): INSERT ... ON CONFLICT (datetime) DO NOTHING.

Prices are modelled as exact rationals.  The places where pandas produces
NaN/inf (the first row of `pct_change`, division by a zero previous close,
and the `prod` reduction which skips NaN inputs) are modelled structurally
by the `PFloat` type below, following IEEE-754 special-value rules.
-/

/-- One OHLCV row of the `stock_data` table (`StockData` in `src/main.py`). -/
structure PriceBar where
  timestamp : ℕ
  open_ : ℚ
  high : ℚ
  low : ℚ
  close : ℚ
  volume : ℕ
deriving DecidableEq, Repr

/-- A pandas scalar: either a finite value, an infinity, or NaN. -/
inductive PFloat where
  | num (q : ℚ)
  | posInf
  | negInf
  | nan
deriving DecidableEq, Repr

namespace PFloat

/-- IEEE-style multiplication: NaN is absorbing, `0 * ±inf = NaN`. -/
def mul : PFloat → PFloat → PFloat
  | nan, _ => nan
  | _, nan => nan
  | num a, num b => num (a * b)
  | num a, posInf => if 0 < a then posInf else if a < 0 then negInf else nan
  | num a, negInf => if 0 < a then negInf else if a < 0 then posInf else nan
  | posInf, num a => if 0 < a then posInf else if a < 0 then negInf else nan
  | negInf, num a => if 0 < a then negInf else if a < 0 then posInf else nan
  | posInf, posInf => posInf
  | posInf, negInf => negInf
  | negInf, posInf => negInf
  | negInf, negInf => posInf

/-- Adding the constant 1 (`df["strategy_returns"] + 1`). -/
def add1 : PFloat → PFloat
  | num a => num (a + 1)
  | x => x

/-- Subtracting the constant 1 (`... .prod() - 1`). -/
def sub1 : PFloat → PFloat
  | num a => num (a - 1)
  | x => x

/-- Is this scalar NaN? -/
def isNan : PFloat → Bool
  | nan => true
  | _ => false

end PFloat

/-- Model of `Series.prod()` with the default `skipna=True`: NaN inputs are
skipped, the remaining values are multiplied left to right starting from 1. -/
def prodSkipNa (l : List PFloat) : PFloat :=
  (l.filter (fun x => ¬ x.isNan)).foldl PFloat.mul (PFloat.num 1)

/-- One entry of `Series.pct_change()`: `cur / prev - 1` in float arithmetic.
A zero previous value yields `±inf` (or NaN when the current value is 0 too). -/
def pctRatio (cur prev : ℚ) : PFloat :=
  if prev = 0 then
    if 0 < cur then PFloat.posInf
    else if cur < 0 then PFloat.negInf
    else PFloat.nan
  else PFloat.num (cur / prev - 1)

/-- Model of `pct_change()` on a close column: NaN at the first row, and each
later row's value relative to the immediately preceding row of the same frame. -/
def pctChange (cs : List ℚ) : List PFloat :=
  match cs with
  | [] => []
  | c :: rest => PFloat.nan :: List.zipWith pctRatio rest (c :: rest)

/-- Sum of the trailing window of width `w` ending at index `i`
(indices `i + 1 - w, …, i`, read with `getD`). -/
def windowSum (closes : List ℚ) (w i : ℕ) : ℚ :=
  ((List.range w).map (fun j => closes.getD (i + 1 - w + j) 0)).sum

/-- Model of `close.rolling(window=w).mean()` at row `i`: defined (non-NaN)
exactly when the trailing window is full, i.e. `w ≤ i + 1`, and then the
arithmetic mean of the trailing `w` closes. -/
def rollingMeanAt (closes : List ℚ) (w i : ℕ) : Option ℚ :=
  if w ≤ i + 1 ∧ i < closes.length then some (windowSum closes w i / w) else none

/-- Row `i` of the frame after the two rolling-mean columns are added, when
it survives `df.dropna()` (lines 179–181): original index, close, short mean,
long mean.  The row survives iff both means are defined. -/
def maRowAt (closes : List ℚ) (sw lw : ℕ) (i : ℕ) : Option (ℕ × ℚ × ℚ × ℚ) :=
  match rollingMeanAt closes sw i, rollingMeanAt closes lw i with
  | some s, some l => some (i, closes.getD i 0, s, l)
  | _, _ => none

/-- Rows surviving `df.dropna()` after the two rolling-mean columns are added
(lines 179–181). -/
def maRows (closes : List ℚ) (sw lw : ℕ) : List (ℕ × ℚ × ℚ × ℚ) :=
  (List.range closes.length).filterMap (maRowAt closes sw lw)

/-- Lines 186–188: signal 0 by default, +1 where short > long, −1 where
short < long. -/
def signalOf (sma lma : ℚ) : ℤ :=
  if sma > lma then 1 else if sma < lma then -1 else 0

/-- The kept rows with their signal column: original index, close, signal. -/
def sigRows (closes : List ℚ) (sw lw : ℕ) : List (ℕ × ℚ × ℤ) :=
  (maRows closes sw lw).map (fun r => (r.1, r.2.1, signalOf r.2.2.1 r.2.2.2))

/-- Lines 190–191: `position = signal.shift()` then `dropna()`.  Row `j + 1`
of the signal frame survives, carrying row `j`'s signal as its position;
the first row (NaN position) is dropped. -/
def posRows (closes : List ℚ) (sw lw : ℕ) : List (ℕ × ℚ × ℤ) :=
  List.zipWith (fun prev cur => (cur.1, cur.2.1, prev.2.2))
    (sigRows closes sw lw) (sigRows closes sw lw).tail

/-- The response of `/strategy/performance` in the successful case. -/
structure PerformanceSummary where
  buy_signals : ℕ
  sell_signals : ℕ
  total_trades : ℕ
  cumulative_return : PFloat
  data_points : ℕ
deriving DecidableEq, Repr

/-- A `/strategy/performance` response: informational message or summary. -/
inductive StrategyResult where
  | message (msg : String)
  | summary (s : PerformanceSummary)
deriving DecidableEq, Repr

/-- Round to the nearest integer, ties to even (Python `round`). -/
def roundHalfEven (q : ℚ) : ℤ :=
  if q - ⌊q⌋ < 1/2 then ⌊q⌋
  else if (1:ℚ)/2 < q - ⌊q⌋ then ⌊q⌋ + 1
  else if 2 ∣ ⌊q⌋ then ⌊q⌋ else ⌊q⌋ + 1

/-- Model of Python `round(x, 4)`: round to 4 fractional digits. -/
def round4 (q : ℚ) : ℚ :=
  (roundHalfEven (q * 10000) : ℚ) / 10000

/-- Rounding to 4 digits lifted to pandas scalars: infinities and NaN pass
through unchanged. -/
def round4PF : PFloat → PFloat
  | PFloat.num q => PFloat.num (round4 q)
  | x => x

/-- Lines 193–194: `returns = close.pct_change()` over the position-trimmed
frame, then `strategy_returns = position * returns` in float arithmetic. -/
def stratReturns (closes : List ℚ) (sw lw : ℕ) : List PFloat :=
  List.zipWith (fun p r => PFloat.mul (PFloat.num (p : ℚ)) r)
    ((posRows closes sw lw).map (fun r => r.2.2))
    (pctChange ((posRows closes sw lw).map (fun r => r.2.1)))

/-- Line 196: `cumulative_return = (strategy_returns + 1).prod() - 1`,
rounded to 4 digits as on line 204. -/
def cumulativeReturn (closes : List ℚ) (sw lw : ℕ) : PFloat :=
  round4PF (PFloat.sub1 (prodSkipNa ((stratReturns closes sw lw).map PFloat.add1)))

/-- Lines 197–206: the successful response record. -/
def strategySummary (closes : List ℚ) (sw lw : ℕ) : PerformanceSummary :=
  { buy_signals := ((posRows closes sw lw).filter (fun r => r.2.2 = 1)).length
    sell_signals := ((posRows closes sw lw).filter (fun r => r.2.2 = -1)).length
    total_trades := ((posRows closes sw lw).filter (fun r => r.2.2 = 1)).length +
      ((posRows closes sw lw).filter (fun r => r.2.2 = -1)).length
    cumulative_return := cumulativeReturn closes sw lw
    data_points := (posRows closes sw lw).length }

/-- Model of `moving_average_strategy` (lines 149–209 of `src/main.py`)
applied to the stored rows in ascending timestamp order.  All stored values
are modelled as already numeric, so the `to_numeric`/`dropna` cleaning step
(lines 168–172) keeps every row and the post-filter length check on line 174
sees the original length. -/
def moving_average_strategy (rows : List PriceBar) (short_window long_window : ℕ) :
    StrategyResult :=
  if rows.isEmpty ∨ rows.length < long_window then
    .message ("Not enough valid data. Need at least " ++ toString long_window ++ " rows.")
  else if rows.length < long_window then
    .message ("Not enough valid data after filtering. Have " ++ toString rows.length ++ " rows.")
  else if (maRows (rows.map PriceBar.close) short_window long_window).isEmpty then
    .message "Not enough data to calculate moving averages"
  else
    .summary (strategySummary (rows.map PriceBar.close) short_window long_window)

/-- Model of `add_stock_data` (POST /data, lines 120–146): INSERT with
`ON CONFLICT (datetime) DO NOTHING`.  Returns the new store, the number of
rows affected, and the message handed to the caller. -/
def add_stock_data (store : List PriceBar) (b : PriceBar) :
    List PriceBar × ℕ × String :=
  if store.any (fun r => r.timestamp = b.timestamp) then
    (store, 0, "Stock data added successfully")
  else
    (store ++ [b], 1, "Stock data added successfully")

/-- Helper for witnesses: a bar whose four prices all equal `c`. -/
def mkBar (t : ℕ) (c : ℚ) : PriceBar :=
  ⟨t, c, c, c, c, 0⟩


lemma strategy_eq_summary (rows : List PriceBar) (sw lw : ℕ)
    (h1 : rows ≠ []) (h2 : lw ≤ rows.length)
    (h3 : maRows (rows.map PriceBar.close) sw lw ≠ []) :
    moving_average_strategy rows sw lw =
      .summary (strategySummary (rows.map PriceBar.close) sw lw) := by
  have hA : ¬(rows.isEmpty = true ∨ rows.length < lw) := by
    rintro (h | h)
    · exact h1 (List.isEmpty_iff.mp h)
    · omega
  have hC : ¬((maRows (rows.map PriceBar.close) sw lw).isEmpty = true) := by
    simpa [List.isEmpty_iff] using h3
  unfold moving_average_strategy
  rw [if_neg hA, if_neg (fun h => hA (Or.inr h)), if_neg hC]

lemma signalOf_cases (s l : ℚ) :
    signalOf s l = -1 ∨ signalOf s l = 0 ∨ signalOf s l = 1 := by
  unfold signalOf
  split_ifs <;> simp

lemma strategy_insufficient (rows : List PriceBar) (sw lw : ℕ) (h : rows.length < lw) :
    moving_average_strategy rows sw lw =
      .message ("Not enough valid data. Need at least " ++ toString lw ++ " rows.") := by
  unfold moving_average_strategy
  rw [if_pos (Or.inr h)]

lemma strategy_ma_empty (rows : List PriceBar) (sw lw : ℕ)
    (h1 : rows ≠ []) (h2 : lw ≤ rows.length)
    (h3 : maRows (rows.map PriceBar.close) sw lw = []) :
    moving_average_strategy rows sw lw =
      .message "Not enough data to calculate moving averages" := by
  have hA : ¬(rows.isEmpty = true ∨ rows.length < lw) := by
    rintro (h | h)
    · exact h1 (List.isEmpty_iff.mp h)
    · omega
  unfold moving_average_strategy
  rw [if_neg hA, if_neg (fun h => hA (Or.inr h)), if_pos (by simp [h3])]

lemma maRows_eq (closes : List ℚ) (sw lw : ℕ) (hsw : 0 < sw) (hlw : 0 < lw) :
    maRows closes sw lw =
      ((List.range closes.length).filter (fun i => max sw lw - 1 ≤ i)).map
        (fun i => (i, closes.getD i 0,
          windowSum closes sw i / sw, windowSum closes lw i / lw)) := by
  unfold maRows
  have key : ∀ l : List ℕ, (∀ i ∈ l, i < closes.length) →
      l.filterMap (maRowAt closes sw lw) =
      (l.filter (fun i => max sw lw - 1 ≤ i)).map
        (fun i => (i, closes.getD i 0,
          windowSum closes sw i / sw, windowSum closes lw i / lw)) := by
    intro l
    induction l with
    | nil => intro _; rfl
    | cons a t ih =>
      intro h
      have ha : a < closes.length := h a (List.mem_cons_self a t)
      have ht := ih (fun i hi => h i (List.mem_cons_of_mem a hi))
      by_cases hk : max sw lw - 1 ≤ a
      · have hs : rollingMeanAt closes sw a = some (windowSum closes sw a / sw) := by
          unfold rollingMeanAt
          rw [if_pos ⟨by omega, ha⟩]
        have hl : rollingMeanAt closes lw a = some (windowSum closes lw a / lw) := by
          unfold rollingMeanAt
          rw [if_pos ⟨by omega, ha⟩]
        have hfa : maRowAt closes sw lw a =
            some (a, closes.getD a 0, windowSum closes sw a / sw,
              windowSum closes lw a / lw) := by
          unfold maRowAt
          rw [hs, hl]
        rw [List.filterMap_cons_some hfa,
          List.filter_cons_of_pos (by simpa using hk), List.map_cons, ht]
      · have hfa : maRowAt closes sw lw a = none := by
          unfold maRowAt
          by_cases hsa : sw ≤ a + 1
          · have hl : rollingMeanAt closes lw a = none := by
              unfold rollingMeanAt
              rw [if_neg (by omega)]
            cases hrs : rollingMeanAt closes sw a <;> rw [hl]
          · have hs : rollingMeanAt closes sw a = none := by
              unfold rollingMeanAt
              rw [if_neg (by omega)]
            rw [hs]
        rw [List.filterMap_cons_none hfa,
          List.filter_cons_of_neg (by simpa using hk), ht]
  exact key _ (fun i hi => List.mem_range.mp hi)

lemma length_filter_range (n m : ℕ) :
    ((List.range n).filter (fun i => m ≤ i)).length = n - m := by
  induction n with
  | zero => simp
  | succ n ih =>
    rw [List.range_succ, List.filter_append, List.length_append, ih]
    by_cases h : m ≤ n
    · simp [List.filter_cons, h]
      omega
    · simp [List.filter_cons, h]
      omega

lemma maRows_length (closes : List ℚ) (sw lw : ℕ) (hsw : 0 < sw) (hlw : 0 < lw) :
    (maRows closes sw lw).length = closes.length - (max sw lw - 1) := by
  rw [maRows_eq closes sw lw hsw hlw, List.length_map, length_filter_range]

lemma sigRows_length (closes : List ℚ) (sw lw : ℕ) :
    (sigRows closes sw lw).length = (maRows closes sw lw).length := by
  unfold sigRows
  rw [List.length_map]

lemma posRows_length (closes : List ℚ) (sw lw : ℕ) :
    (posRows closes sw lw).length = (sigRows closes sw lw).length - 1 := by
  unfold posRows
  rw [List.length_zipWith, List.length_tail]
  omega

lemma exists_of_mem_zipWith {α β γ : Type} {f : α → β → γ} :
    ∀ {l1 : List α} {l2 : List β} {c : γ}, c ∈ List.zipWith f l1 l2 →
      ∃ a ∈ l1, ∃ b ∈ l2, c = f a b := by
  intro l1
  induction l1 with
  | nil => intro l2 c h; simp at h
  | cons a t ih =>
    intro l2 c h
    cases l2 with
    | nil => simp at h
    | cons b u =>
      rw [List.zipWith_cons_cons] at h
      rcases List.mem_cons.mp h with h | h
      · exact ⟨a, List.mem_cons_self a t, b, List.mem_cons_self b u, h⟩
      · obtain ⟨x, hx, y, hy, rfl⟩ := ih h
        exact ⟨x, List.mem_cons_of_mem _ hx, y, List.mem_cons_of_mem _ hy, rfl⟩

lemma mem_maRows_iff (closes : List ℚ) (sw lw : ℕ) (hsw : 0 < sw) (hlw : 0 < lw)
    (r : ℕ × ℚ × ℚ × ℚ) :
    r ∈ maRows closes sw lw ↔
      ∃ i, i < closes.length ∧ max sw lw - 1 ≤ i ∧
        r = (i, closes.getD i 0,
          windowSum closes sw i / sw, windowSum closes lw i / lw) := by
  rw [maRows_eq closes sw lw hsw hlw]
  simp only [List.mem_map, List.mem_filter, List.mem_range, decide_eq_true_eq]
  constructor
  · rintro ⟨i, ⟨hi, hk⟩, rfl⟩
    exact ⟨i, hi, hk, rfl⟩
  · rintro ⟨i, hi, hk, rfl⟩
    exact ⟨i, ⟨hi, hk⟩, rfl⟩

lemma mem_sigRows_iff (closes : List ℚ) (sw lw : ℕ) (hsw : 0 < sw) (hlw : 0 < lw)
    (p : ℕ × ℚ × ℤ) :
    p ∈ sigRows closes sw lw ↔
      ∃ i, i < closes.length ∧ max sw lw - 1 ≤ i ∧
        p = (i, closes.getD i 0,
          signalOf (windowSum closes sw i / sw) (windowSum closes lw i / lw)) := by
  unfold sigRows
  simp only [List.mem_map]
  constructor
  · rintro ⟨m, hm, rfl⟩
    obtain ⟨i, hi, hk, rfl⟩ := (mem_maRows_iff closes sw lw hsw hlw m).mp hm
    exact ⟨i, hi, hk, rfl⟩
  · rintro ⟨i, hi, hk, rfl⟩
    exact ⟨(i, closes.getD i 0, windowSum closes sw i / sw, windowSum closes lw i / lw),
      (mem_maRows_iff closes sw lw hsw hlw _).mpr ⟨i, hi, hk, rfl⟩, rfl⟩

lemma sigRows_signal_mem (closes : List ℚ) (sw lw : ℕ) :
    ∀ p ∈ sigRows closes sw lw, p.2.2 = -1 ∨ p.2.2 = 0 ∨ p.2.2 = 1 := by
  intro p hp
  unfold sigRows at hp
  obtain ⟨m, _, rfl⟩ := List.mem_map.mp hp
  exact signalOf_cases m.2.2.1 m.2.2.2

lemma posRows_position_values (closes : List ℚ) (sw lw : ℕ) :
    ∀ r ∈ posRows closes sw lw, r.2.2 = -1 ∨ r.2.2 = 0 ∨ r.2.2 = 1 := by
  intro r hr
  obtain ⟨p, hp, c, _, rfl⟩ := exists_of_mem_zipWith hr
  exact sigRows_signal_mem closes sw lw p hp

lemma maRows_close_mem (closes : List ℚ) (sw lw : ℕ) :
    ∀ m ∈ maRows closes sw lw, m.2.1 ∈ closes := by
  intro m hm
  unfold maRows at hm
  obtain ⟨i, hi, hfi⟩ := List.mem_filterMap.mp hm
  have hi2 : i < closes.length := List.mem_range.mp hi
  unfold maRowAt at hfi
  cases h1 : rollingMeanAt closes sw i <;> rw [h1] at hfi
  · simp at hfi
  · cases h2 : rollingMeanAt closes lw i <;> rw [h2] at hfi
    · simp at hfi
    · simp only [Option.some.injEq] at hfi
      rw [← hfi]
      show closes.getD i 0 ∈ closes
      rw [List.getD_eq_getElem closes 0 hi2]
      exact List.getElem_mem hi2

lemma posRows_close_mem (closes : List ℚ) (sw lw : ℕ) :
    ∀ r ∈ posRows closes sw lw, r.2.1 ∈ closes := by
  intro r hr
  obtain ⟨p, _, c, hc, rfl⟩ := exists_of_mem_zipWith hr
  have hc2 : c ∈ sigRows closes sw lw := List.mem_of_mem_tail hc
  unfold sigRows at hc2
  obtain ⟨m, hm, rfl⟩ := List.mem_map.mp hc2
  exact maRows_close_mem closes sw lw m hm

lemma sum_range_map_succ (g : ℕ → ℚ) (w : ℕ) :
    ((List.range w).map (fun j => g (j + 1))).sum =
      ((List.range w).map g).sum + g w - g 0 := by
  have h1 : ((List.range (w + 1)).map g).sum =
      g 0 + ((List.range w).map (fun j => g (j + 1))).sum := by
    rw [List.range_succ_eq_map, List.map_cons, List.sum_cons, List.map_map]
    rfl
  have h2 : ((List.range (w + 1)).map g).sum = ((List.range w).map g).sum + g w := by
    rw [List.range_succ, List.map_append, List.sum_append]
    simp
  rw [h2] at h1
  linarith

lemma windowSum_succ (closes : List ℚ) (w i : ℕ) (h : w ≤ i + 1) :
    windowSum closes w (i + 1) =
      windowSum closes w i + closes.getD (i + 1) 0 - closes.getD (i + 1 - w) 0 := by
  unfold windowSum
  have h2 : i + 1 + 1 - w = (i + 1 - w) + 1 := by omega
  rw [h2]
  have h3 : (fun j => closes.getD (i + 1 - w + 1 + j) 0) =
      (fun j => closes.getD ((i + 1 - w) + (j + 1)) 0) := by
    funext j
    congr 1
    omega
  rw [h3]
  have h4 := sum_range_map_succ (fun j => closes.getD ((i + 1 - w) + j) 0) w
  simp only [] at h4
  rw [h4]
  have h5 : i + 1 - w + w = i + 1 := by omega
  rw [h5]
  simp

lemma sum_getD_range (closes : List ℚ) (s w : ℕ) (h : s + w ≤ closes.length) :
    ((List.range w).map (fun j => closes.getD (s + j) 0)).sum =
      ((closes.drop s).take w).sum := by
  induction w with
  | zero => simp
  | succ w ih =>
    rw [List.range_succ, List.map_append, List.sum_append, ih (by omega)]
    have hw : s + w < closes.length := by omega
    have hd : (closes.drop s)[w]? = some closes[s + w] := by
      rw [List.getElem?_drop]
      exact List.getElem?_eq_getElem hw
    rw [List.take_succ, List.sum_append, hd]
    simp [List.getElem?_eq_getElem hw]

lemma windowSum_eq_take_drop (closes : List ℚ) (w i : ℕ)
    (hwi : w ≤ i + 1) (hi : i < closes.length) :
    windowSum closes w i = ((closes.drop (i + 1 - w)).take w).sum := by
  unfold windowSum
  exact sum_getD_range closes (i + 1 - w) w (by omega)

lemma prodSkipNa_nan_cons (l : List PFloat) :
    prodSkipNa (PFloat.nan :: l) = prodSkipNa l := by
  unfold prodSkipNa
  rw [List.filter_cons_of_neg (by simp [PFloat.isNan])]

lemma foldl_mul_num (qs : List ℚ) :
    ∀ a : ℚ, (qs.map PFloat.num).foldl PFloat.mul (PFloat.num a) =
      PFloat.num (a * qs.prod) := by
  induction qs with
  | nil =>
    intro a
    simp [PFloat.mul]
  | cons q t ih =>
    intro a
    rw [List.map_cons, List.foldl_cons]
    show (t.map PFloat.num).foldl PFloat.mul (PFloat.num (a * q)) = _
    rw [ih (a * q), List.prod_cons]
    congr 1
    ring

lemma prodSkipNa_nums (qs : List ℚ) :
    prodSkipNa (qs.map PFloat.num) = PFloat.num qs.prod := by
  unfold prodSkipNa
  have hf : (qs.map PFloat.num).filter (fun x => ¬ x.isNan) = qs.map PFloat.num := by
    rw [List.filter_eq_self]
    intro a ha
    obtain ⟨q, _, rfl⟩ := List.mem_map.mp ha
    simp [PFloat.isNan]
  rw [hf]
  have := foldl_mul_num qs 1
  rw [this, one_mul]

lemma stratTerms_eq (tl : List (ℕ × ℚ × ℤ)) :
    ∀ ps : List (ℕ × ℚ × ℤ), (∀ r ∈ ps, r.2.1 ≠ 0) →
    (List.zipWith (fun p r => PFloat.mul (PFloat.num (p : ℚ)) r)
        (tl.map (fun r => r.2.2))
        (List.zipWith pctRatio (tl.map (fun r => r.2.1)) (ps.map (fun r => r.2.1)))).map
        PFloat.add1
      = (List.zipWith (fun cur prev => 1 + (cur.2.2 : ℚ) * (cur.2.1 / prev.2.1 - 1))
          tl ps).map PFloat.num := by
  induction tl with
  | nil =>
    intro ps _
    simp
  | cons x tl2 ih =>
    intro ps hnz
    cases ps with
    | nil => simp
    | cons y ps2 =>
      have hy : y.2.1 ≠ 0 := hnz y (List.mem_cons_self y ps2)
      simp only [List.map_cons, List.zipWith_cons_cons]
      have hh : PFloat.add1 (PFloat.mul (PFloat.num (x.2.2 : ℚ)) (pctRatio x.2.1 y.2.1)) =
          PFloat.num (1 + (x.2.2 : ℚ) * (x.2.1 / y.2.1 - 1)) := by
        unfold pctRatio
        rw [if_neg hy]
        show PFloat.num ((x.2.2 : ℚ) * (x.2.1 / y.2.1 - 1) + 1) = _
        congr 1
        ring
      rw [hh, ih ps2 (fun r hr => hnz r (List.mem_cons_of_mem y hr))]

lemma cumulativeReturn_eq (closes : List ℚ) (sw lw : ℕ)
    (hnz : ∀ c ∈ closes, c ≠ 0) :
    cumulativeReturn closes sw lw =
      PFloat.num (round4
        ((List.zipWith (fun cur prev => 1 + (cur.2.2 : ℚ) * (cur.2.1 / prev.2.1 - 1))
            (posRows closes sw lw).tail (posRows closes sw lw)).prod - 1)) := by
  have hnzp : ∀ r ∈ posRows closes sw lw, r.2.1 ≠ 0 :=
    fun r hr => hnz _ (posRows_close_mem closes sw lw r hr)
  unfold cumulativeReturn stratReturns
  cases hp : posRows closes sw lw with
  | nil =>
    simp [pctChange, prodSkipNa, PFloat.sub1, round4PF]
  | cons a tl =>
    rw [hp] at hnzp
    simp only [List.map_cons, List.tail_cons]
    have hpc : pctChange (a.2.1 :: tl.map (fun r => r.2.1)) =
        PFloat.nan :: List.zipWith pctRatio (tl.map (fun r => r.2.1))
          (a.2.1 :: tl.map (fun r => r.2.1)) := rfl
    rw [hpc, List.zipWith_cons_cons]
    have hmn : PFloat.mul (PFloat.num (a.2.2 : ℚ)) PFloat.nan = PFloat.nan := rfl
    rw [hmn, List.map_cons]
    show round4PF (PFloat.sub1 (prodSkipNa (PFloat.nan :: _))) = _
    rw [prodSkipNa_nan_cons]
    have hmm : (a.2.1 :: tl.map (fun r => r.2.1)) = (a :: tl).map (fun r => r.2.1) := rfl
    rw [hmm, stratTerms_eq tl (a :: tl) hnzp, prodSkipNa_nums]
    rfl

/-- Is the strategy result a PerformanceSummary? -/
def isSummary : StrategyResult → Bool
  | .summary _ => true
  | _ => false

unseal Rat.add Rat.mul Rat.sub Rat.inv in
lemma round4_zero : round4 0 = 0 := by decide

/-- C4: for every input series with fewer than long_window bars (including
the empty series), the strategy computation returns the informational
insufficient-data message stating the minimum required count (long_window),
and never returns a PerformanceSummary; the message branch is a normal
return value, not an exception. -/
theorem C4_insufficient_data (rows : List PriceBar) (sw lw : ℕ)
    (h : rows.length < lw) :
    moving_average_strategy rows sw lw =
      .message ("Not enough valid data. Need at least " ++ toString lw ++ " rows.") ∧
    isSummary (moving_average_strategy rows sw lw) = false := by
  have he := strategy_insufficient rows sw lw h
  exact ⟨he, by rw [he]; rfl⟩

theorem C4_insufficient_data_witness :
    ([mkBar 0 1, mkBar 1 2, mkBar 2 3] : List PriceBar).length < 5 ∧
    (moving_average_strategy [mkBar 0 1, mkBar 1 2, mkBar 2 3] 2 5 =
      .message ("Not enough valid data. Need at least " ++ toString 5 ++ " rows.") ∧
    isSummary (moving_average_strategy [mkBar 0 1, mkBar 1 2, mkBar 2 3] 2 5) = false) :=
  ⟨by decide, C4_insufficient_data [mkBar 0 1, mkBar 1 2, mkBar 2 3] 2 5 (by decide)⟩

/-- C9: every PerformanceSummary returned by the strategy computation has
total_trades = buy_signals + sell_signals, where buy_signals counts retained
rows with position +1 and sell_signals counts retained rows with position −1. -/
theorem C9_total_trades (rows : List PriceBar) (sw lw : ℕ) (s : PerformanceSummary)
    (h : moving_average_strategy rows sw lw = .summary s) :
    s.total_trades = s.buy_signals + s.sell_signals ∧
    s.buy_signals =
      ((posRows (rows.map PriceBar.close) sw lw).filter (fun r => r.2.2 = 1)).length ∧
    s.sell_signals =
      ((posRows (rows.map PriceBar.close) sw lw).filter (fun r => r.2.2 = -1)).length := by
  unfold moving_average_strategy at h
  split_ifs at h
  rw [StrategyResult.summary.injEq] at h
  subst h
  exact ⟨rfl, rfl, rfl⟩

unseal Rat.add Rat.mul Rat.sub Rat.inv in
theorem C9_total_trades_witness :
    (2 : ℕ) = 2 + 0 ∧
    (2 : ℕ) = ((posRows ([mkBar 0 1, mkBar 1 2, mkBar 2 3, mkBar 3 4].map PriceBar.close) 1 2).filter
        (fun r => r.2.2 = 1)).length ∧
    (0 : ℕ) = ((posRows ([mkBar 0 1, mkBar 1 2, mkBar 2 3, mkBar 3 4].map PriceBar.close) 1 2).filter
        (fun r => r.2.2 = -1)).length :=
  C9_total_trades [mkBar 0 1, mkBar 1 2, mkBar 2 3, mkBar 3 4] 1 2
    ⟨2, 0, 2, PFloat.num (3333/10000), 2⟩ (by decide)

/-- C2: a bar is kept after the rolling-mean step iff both its short and
long rolling means are defined, which keeps exactly the bars from position
max(short_window, long_window) − 1 on (removing the first
max(short_window, long_window) − 1 bars), and every kept bar enters the
signal frame with signal +1 when short_ma > long_ma, −1 when
short_ma < long_ma, and 0 when they are equal. -/
theorem C2_keep_iff_and_signal (closes : List ℚ) (sw lw : ℕ)
    (hsw : 0 < sw) (hlw : 0 < lw) :
    (∀ i, i < closes.length →
      (((∃ r ∈ maRows closes sw lw, r.1 = i) ↔
        ((rollingMeanAt closes sw i).isSome ∧ (rollingMeanAt closes lw i).isSome)) ∧
       ((∃ r ∈ maRows closes sw lw, r.1 = i) ↔ max sw lw - 1 ≤ i))) ∧
    (∀ r ∈ maRows closes sw lw,
      (r.1, r.2.1, if r.2.2.1 > r.2.2.2 then (1 : ℤ)
        else if r.2.2.1 < r.2.2.2 then -1 else 0) ∈ sigRows closes sw lw) := by
  constructor
  · intro i hi
    have hmem : (∃ r ∈ maRows closes sw lw, r.1 = i) ↔ max sw lw - 1 ≤ i := by
      constructor
      · rintro ⟨r, hr, rfl⟩
        obtain ⟨j, hj, hk, rfl⟩ := (mem_maRows_iff closes sw lw hsw hlw r).mp hr
        exact hk
      · intro hk
        exact ⟨(i, closes.getD i 0, windowSum closes sw i / sw, windowSum closes lw i / lw),
          (mem_maRows_iff closes sw lw hsw hlw _).mpr ⟨i, hi, hk, rfl⟩, rfl⟩
    have hsome : ((rollingMeanAt closes sw i).isSome ∧ (rollingMeanAt closes lw i).isSome) ↔
        max sw lw - 1 ≤ i := by
      unfold rollingMeanAt
      constructor
      · intro ⟨ha, hb⟩
        split_ifs at ha hb with h1 h2
        · omega
        · simp at hb
        · simp at ha
        · simp at ha
      · intro hk
        rw [if_pos ⟨by omega, hi⟩, if_pos ⟨by omega, hi⟩]
        exact ⟨rfl, rfl⟩
    exact ⟨hmem.trans hsome.symm, hmem⟩
  · intro r hr
    have : (r.1, r.2.1, signalOf r.2.2.1 r.2.2.2) ∈ sigRows closes sw lw :=
      List.mem_map_of_mem _ hr
    exact this

unseal Rat.add Rat.mul Rat.sub Rat.inv in
theorem C2_keep_iff_and_signal_witness :
    ((∃ r ∈ maRows [1, 2, 3, 4] 2 3, r.1 = 2) ↔
      ((rollingMeanAt [1, 2, 3, 4] 2 2).isSome ∧ (rollingMeanAt [1, 2, 3, 4] 3 2).isSome)) ∧
    ((∃ r ∈ maRows [1, 2, 3, 4] 2 3, r.1 = 2) ↔ max 2 3 - 1 ≤ 2) :=
  (C2_keep_iff_and_signal [1, 2, 3, 4] 2 3 (by decide) (by decide)).1 2 (by decide)

/-- C3: in the position step, each surviving row carries the previous kept
bar's signal as its position (shift-by-one), the first kept bar is dropped
(the frame shrinks by one row), and every retained position is −1, 0 or +1. -/
theorem C3_position_lag (closes : List ℚ) (sw lw : ℕ) :
    (posRows closes sw lw).length = (sigRows closes sw lw).length - 1 ∧
    (∀ j, j + 1 < (sigRows closes sw lw).length →
      (posRows closes sw lw).getD j (0, 0, 0) =
        (((sigRows closes sw lw).getD (j + 1) (0, 0, 0)).1,
         ((sigRows closes sw lw).getD (j + 1) (0, 0, 0)).2.1,
         ((sigRows closes sw lw).getD j (0, 0, 0)).2.2)) ∧
    (∀ r ∈ posRows closes sw lw, r.2.2 = -1 ∨ r.2.2 = 0 ∨ r.2.2 = 1) := by
  refine ⟨posRows_length closes sw lw, ?_, posRows_position_values closes sw lw⟩
  intro j hj
  have hp : j < (posRows closes sw lw).length := by
    rw [posRows_length]
    omega
  have hs1 : j < (sigRows closes sw lw).length := by omega
  have hst : j < (sigRows closes sw lw).tail.length := by
    rw [List.length_tail]
    omega
  rw [List.getD_eq_getElem _ _ hp, List.getD_eq_getElem _ _ hj,
    List.getD_eq_getElem _ _ hs1]
  unfold posRows
  rw [List.getElem_zipWith]
  rw [List.getElem_tail]

unseal Rat.add Rat.mul Rat.sub Rat.inv in
theorem C3_position_lag_witness :
    (posRows [1, 2, 3, 4] 1 2).getD 0 (0, 0, 0) =
      (((sigRows [1, 2, 3, 4] 1 2).getD 1 (0, 0, 0)).1,
       ((sigRows [1, 2, 3, 4] 1 2).getD 1 (0, 0, 0)).2.1,
       ((sigRows [1, 2, 3, 4] 1 2).getD 0 (0, 0, 0)).2.2) :=
  (C3_position_lag [1, 2, 3, 4] 1 2).2.1 0 (by decide)

/-- C5: for a window 0 < w ≤ n, the rolling mean at the first valid index
w − 1 is the simple average of the first w closes; each later defined mean
adds (new_close − dropped_close)/w to the previous one; the mean at any
index i with w ≤ i + 1 is the arithmetic mean of the trailing w closes
ending at i; and the mean is undefined for i + 1 < w. -/
theorem C5_rolling_mean (closes : List ℚ) (w : ℕ) (hw : 0 < w)
    (hwn : w ≤ closes.length) :
    rollingMeanAt closes w (w - 1) = some ((closes.take w).sum / w) ∧
    (∀ i, w ≤ i + 1 → i + 1 < closes.length →
      ∃ m, rollingMeanAt closes w i = some m ∧
        rollingMeanAt closes w (i + 1) =
          some (m + (closes.getD (i + 1) 0 - closes.getD (i + 1 - w) 0) / w)) ∧
    (∀ i, i < closes.length → w ≤ i + 1 →
      rollingMeanAt closes w i = some (((closes.drop (i + 1 - w)).take w).sum / w)) ∧
    (∀ i, i + 1 < w → rollingMeanAt closes w i = none) := by
  have hvalid : ∀ i, i < closes.length → w ≤ i + 1 →
      rollingMeanAt closes w i = some (windowSum closes w i / w) := by
    intro i hi hwi
    unfold rollingMeanAt
    rw [if_pos ⟨hwi, hi⟩]
  refine ⟨?_, ?_, ?_, ?_⟩
  · have h1 : w - 1 < closes.length := by omega
    have h2 : w ≤ w - 1 + 1 := by omega
    rw [hvalid (w - 1) h1 h2, windowSum_eq_take_drop closes w (w - 1) h2 h1]
    have h3 : w - 1 + 1 - w = 0 := by omega
    rw [h3, List.drop_zero]
  · intro i hwi hi1
    refine ⟨windowSum closes w i / w, hvalid i (by omega) hwi, ?_⟩
    rw [hvalid (i + 1) hi1 (by omega), windowSum_succ closes w i hwi]
    congr 1
    ring
  · intro i hi hwi
    rw [hvalid i hi hwi, windowSum_eq_take_drop closes w i hwi hi]
  · intro i hi
    unfold rollingMeanAt
    rw [if_neg (by omega)]

unseal Rat.add Rat.mul Rat.sub Rat.inv in
theorem C5_rolling_mean_witness :
    rollingMeanAt [10, 20, 30, 40, 50, 60, 70, 80, 90, 100] 3 (3 - 1) =
      some ((([10, 20, 30, 40, 50, 60, 70, 80, 90, 100] : List ℚ).take 3).sum / 3) :=
  (C5_rolling_mean [10, 20, 30, 40, 50, 60, 70, 80, 90, 100] 3 (by decide) (by decide)).1

/-- C10: when the stored series has n ≥ max(short_window, long_window) bars
(and positive windows), the computation returns a PerformanceSummary with
data_points = n − max(short_window, long_window); in particular at
n = max(short_window, long_window) it returns the all-zero summary with
cumulative_return 0.0 rather than an insufficient-data message. -/
theorem C10_data_points (rows : List PriceBar) (sw lw : ℕ)
    (hsw : 0 < sw) (hlw : 0 < lw) (hn : max sw lw ≤ rows.length) :
    (∃ s, moving_average_strategy rows sw lw = .summary s ∧
      s.data_points = rows.length - max sw lw) ∧
    (rows.length = max sw lw →
      moving_average_strategy rows sw lw = .summary ⟨0, 0, 0, PFloat.num 0, 0⟩) := by
  have hclen : (rows.map PriceBar.close).length = rows.length := List.length_map _ _
  have hml : (maRows (rows.map PriceBar.close) sw lw).length =
      rows.length - (max sw lw - 1) := by
    rw [maRows_length _ _ _ hsw hlw, hclen]
  have hne : maRows (rows.map PriceBar.close) sw lw ≠ [] := by
    intro hc
    rw [hc] at hml
    simp at hml
    omega
  have h1 : rows ≠ [] := by
    intro hc
    subst hc
    simp at hn
    omega
  have h2 : lw ≤ rows.length := le_trans (le_max_right sw lw) hn
  have heq := strategy_eq_summary rows sw lw h1 h2 hne
  have hplen : (posRows (rows.map PriceBar.close) sw lw).length =
      rows.length - max sw lw := by
    rw [posRows_length, sigRows_length, hml]
    omega
  constructor
  · exact ⟨strategySummary (rows.map PriceBar.close) sw lw, heq, hplen⟩
  · intro hEq
    rw [heq]
    have hp0 : (posRows (rows.map PriceBar.close) sw lw).length = 0 := by omega
    have hpnil : posRows (rows.map PriceBar.close) sw lw = [] :=
      List.length_eq_zero.mp hp0
    congr 1
    unfold strategySummary cumulativeReturn stratReturns
    rw [hpnil]
    simp [pctChange, prodSkipNa, PFloat.sub1, round4PF, round4_zero]

unseal Rat.add Rat.mul Rat.sub Rat.inv in
theorem C10_data_points_witness :
    (∃ s, moving_average_strategy [mkBar 0 1, mkBar 1 2, mkBar 2 3] 2 3 = .summary s ∧
      s.data_points = ([mkBar 0 1, mkBar 1 2, mkBar 2 3] : List PriceBar).length - max 2 3) ∧
    (([mkBar 0 1, mkBar 1 2, mkBar 2 3] : List PriceBar).length = max 2 3 →
      moving_average_strategy [mkBar 0 1, mkBar 1 2, mkBar 2 3] 2 3 =
        .summary ⟨0, 0, 0, PFloat.num 0, 0⟩) :=
  C10_data_points [mkBar 0 1, mkBar 1 2, mkBar 2 3] 2 3 (by decide) (by decide) (by decide)

/-- C1: for every stored series with positive windows that reaches the
summary branch (nonzero closes, so every chained period return is a finite
number), the returned cumulative_return is the compounding product of
1 + position·period_return over the retained rows minus 1, where each
period return is taken against the immediately preceding row of the
position-trimmed sequence, rounded to 4 fractional digits. -/
theorem C1_cumulative_return (rows : List PriceBar) (sw lw : ℕ)
    (hsw : 0 < sw) (hlw : 0 < lw)
    (h1 : rows ≠ []) (h2 : lw ≤ rows.length)
    (h3 : maRows (rows.map PriceBar.close) sw lw ≠ [])
    (hnz : ∀ c ∈ rows.map PriceBar.close, c ≠ 0) :
    ∃ s, moving_average_strategy rows sw lw = .summary s ∧
      s.cumulative_return = PFloat.num (round4
        ((List.zipWith (fun cur prev => 1 + (cur.2.2 : ℚ) * (cur.2.1 / prev.2.1 - 1))
            (posRows (rows.map PriceBar.close) sw lw).tail
            (posRows (rows.map PriceBar.close) sw lw)).prod - 1)) := by
  refine ⟨strategySummary (rows.map PriceBar.close) sw lw,
    strategy_eq_summary rows sw lw h1 h2 h3, ?_⟩
  show cumulativeReturn (rows.map PriceBar.close) sw lw = _
  exact cumulativeReturn_eq (rows.map PriceBar.close) sw lw hnz

unseal Rat.add Rat.mul Rat.sub Rat.inv in
theorem C1_cumulative_return_witness :
    ∃ s, moving_average_strategy [mkBar 0 1, mkBar 1 2, mkBar 2 3, mkBar 3 4] 1 2 =
        .summary s ∧
      s.cumulative_return = PFloat.num (round4
        ((List.zipWith (fun cur prev => 1 + (cur.2.2 : ℚ) * (cur.2.1 / prev.2.1 - 1))
            (posRows ([mkBar 0 1, mkBar 1 2, mkBar 2 3, mkBar 3 4].map PriceBar.close) 1 2).tail
            (posRows ([mkBar 0 1, mkBar 1 2, mkBar 2 3, mkBar 3 4].map PriceBar.close) 1 2)).prod
          - 1)) :=
  C1_cumulative_return [mkBar 0 1, mkBar 1 2, mkBar 2 3, mkBar 3 4] 1 2
    (by decide) (by decide) (by decide) (by decide) (by decide) (by decide)

unseal Rat.add Rat.mul Rat.sub Rat.inv in
/-- C6 counterexample: with 3 stored bars and windows short=5, long=3 the
rolling-mean dropna leaves an empty frame, and the code returns the fixed
message "Not enough data to calculate moving averages", which contains no
digit at all — in particular it does not state the post-filter count (0),
contrary to the claim. -/
theorem C6_counterexample :
    moving_average_strategy [mkBar 0 1, mkBar 1 2, mkBar 2 3] 5 3 =
      .message "Not enough data to calculate moving averages" ∧
    (∀ c ∈ "Not enough data to calculate moving averages".toList, ¬ c.isDigit) := by
  constructor
  · decide
  · decide

/-- C6 (amended): whenever the sequence remaining after dropping the bars
lacking a full rolling window is empty, the computation returns an
informational message (same kind of result as the early exit, not a
summary), but with the fixed text "Not enough data to calculate moving
averages" that does not state the post-filter count. -/
theorem C6_ma_empty_message (rows : List PriceBar) (sw lw : ℕ)
    (h1 : rows ≠ []) (h2 : lw ≤ rows.length)
    (h3 : maRows (rows.map PriceBar.close) sw lw = []) :
    moving_average_strategy rows sw lw =
      .message "Not enough data to calculate moving averages" ∧
    isSummary (moving_average_strategy rows sw lw) = false := by
  have he := strategy_ma_empty rows sw lw h1 h2 h3
  exact ⟨he, by rw [he]; rfl⟩

unseal Rat.add Rat.mul Rat.sub Rat.inv in
theorem C6_ma_empty_message_witness :
    (moving_average_strategy [mkBar 0 1, mkBar 1 2, mkBar 2 3] 5 3 =
      .message "Not enough data to calculate moving averages" ∧
    isSummary (moving_average_strategy [mkBar 0 1, mkBar 1 2, mkBar 2 3] 5 3) = false) :=
  C6_ma_empty_message [mkBar 0 1, mkBar 1 2, mkBar 2 3] 5 3
    (by decide) (by decide) (by decide)

unseal Rat.add Rat.mul Rat.sub Rat.inv in
/-- C7: evaluation of the code at a failing input.  With closes 4, 2, 0, 4
and windows short=1, long=2 the retained row whose previous close is 0 is
NOT excluded: its period return is −infinity times the position, the skipna
product keeps it, and the returned cumulative_return is negInf — an infinite
value propagated into the summary, contrary to the claim (which would give
an empty compounding product and cumulative_return 0.0). -/
theorem C7_zero_close_propagates :
    moving_average_strategy [mkBar 0 4, mkBar 1 2, mkBar 2 0, mkBar 3 4] 1 2 =
      .summary ⟨0, 2, 2, PFloat.negInf, 2⟩ := by
  decide

lemma filter_timestamp_singleton (l : List PriceBar) (v : ℕ)
    (hnd : (l.map PriceBar.timestamp).Nodup)
    (hex : ∃ r ∈ l, r.timestamp = v) :
    (l.filter (fun r => r.timestamp = v)).length = 1 := by
  induction l with
  | nil =>
    obtain ⟨r, hr, _⟩ := hex
    cases hr
  | cons a t ih =>
    rw [List.map_cons, List.nodup_cons] at hnd
    obtain ⟨hna, hnt⟩ := hnd
    by_cases hav : a.timestamp = v
    · rw [List.filter_cons_of_pos (by simpa using hav)]
      have hemp : t.filter (fun r => r.timestamp = v) = [] := by
        rw [List.filter_eq_nil_iff]
        intro x hx
        simp only [decide_eq_true_eq]
        intro hxv
        apply hna
        have : a.timestamp = x.timestamp := by rw [hav, hxv]
        rw [this]
        exact List.mem_map_of_mem PriceBar.timestamp hx
      rw [hemp]
      rfl
    · rw [List.filter_cons_of_neg (by simpa using hav)]
      apply ih hnt
      obtain ⟨r, hr, hrv⟩ := hex
      rcases List.mem_cons.mp hr with rfl | hrt
      · exact absurd hrv hav
      · exact ⟨r, hrt, hrv⟩

/-- C8: inserting a bar whose timestamp already exists is a silent no-op.
Starting from any store with unique timestamps, inserting the same bar
twice leaves exactly one row with that timestamp, the second insert affects
zero rows, and both calls return the success confirmation message. -/
theorem C8_insert_idempotent (store : List PriceBar) (b : PriceBar)
    (hnd : (store.map PriceBar.timestamp).Nodup) :
    ((add_stock_data (add_stock_data store b).1 b).1.filter
        (fun r => r.timestamp = b.timestamp)).length = 1 ∧
    (add_stock_data (add_stock_data store b).1 b).2.1 = 0 ∧
    (add_stock_data store b).2.2 = "Stock data added successfully" ∧
    (add_stock_data (add_stock_data store b).1 b).2.2 =
      "Stock data added successfully" := by
  by_cases hmem : store.any (fun r => r.timestamp = b.timestamp)
  · have hstep : add_stock_data store b =
        (store, 0, "Stock data added successfully") := by
      unfold add_stock_data
      rw [if_pos hmem]
    have hex : ∃ r ∈ store, r.timestamp = b.timestamp := by
      obtain ⟨r, hr, hrt⟩ := List.any_eq_true.mp hmem
      exact ⟨r, hr, of_decide_eq_true hrt⟩
    rw [hstep]
    show ((add_stock_data store b).1.filter _).length = 1 ∧
      (add_stock_data store b).2.1 = 0 ∧ _ = _ ∧ (add_stock_data store b).2.2 = _
    rw [hstep]
    exact ⟨filter_timestamp_singleton store b.timestamp hnd hex, rfl, rfl, rfl⟩
  · have hstep : add_stock_data store b =
        (store ++ [b], 1, "Stock data added successfully") := by
      unfold add_stock_data
      rw [if_neg hmem]
    have hmem2 : (store ++ [b]).any (fun r => r.timestamp = b.timestamp) := by
      rw [List.any_eq_true]
      exact ⟨b, List.mem_append_right store (List.mem_singleton_self b), by simp⟩
    have hstep2 : add_stock_data (store ++ [b]) b =
        (store ++ [b], 0, "Stock data added successfully") := by
      unfold add_stock_data
      rw [if_pos hmem2]
    rw [hstep]
    show ((add_stock_data (store ++ [b]) b).1.filter _).length = 1 ∧
      (add_stock_data (store ++ [b]) b).2.1 = 0 ∧ _ = _ ∧
      (add_stock_data (store ++ [b]) b).2.2 = _
    rw [hstep2]
    refine ⟨?_, rfl, rfl, rfl⟩
    rw [List.filter_append]
    have hnil : store.filter (fun r => r.timestamp = b.timestamp) = [] := by
      rw [List.filter_eq_nil_iff]
      intro x hx
      simp only [decide_eq_true_eq]
      intro hxv
      apply hmem
      rw [List.any_eq_true]
      exact ⟨x, hx, by simpa using hxv⟩
    rw [hnil]
    simp

theorem C8_insert_idempotent_witness :
    ((([] : List PriceBar).map PriceBar.timestamp).Nodup) ∧
    (((add_stock_data (add_stock_data [] (mkBar 7 1)).1 (mkBar 7 1)).1.filter
        (fun r => r.timestamp = (mkBar 7 1).timestamp)).length = 1 ∧
    (add_stock_data (add_stock_data [] (mkBar 7 1)).1 (mkBar 7 1)).2.1 = 0 ∧
    (add_stock_data [] (mkBar 7 1)).2.2 = "Stock data added successfully" ∧
    (add_stock_data (add_stock_data [] (mkBar 7 1)).1 (mkBar 7 1)).2.2 =
      "Stock data added successfully") :=
  ⟨by decide, C8_insert_idempotent [] (mkBar 7 1) (by decide)⟩
